import Mathlib

/-!
Shallow embedding of the oasis-cbor schema/codec layer.

The `Value` tree and its canonical ordering live in the `oasis-cbor-value`
crate, which is re-exported by `src/lib.rs` but whose sources are not part of
this tree; those parts are modelled from the specification (§3, §6) and are
marked as such.  Everything else is translated from `src/src/*.rs` and from
the code generated by the derive macros in `src/derive/src/*.rs`.
-/

/-- CBOR simple values (`SimpleValue` in the value crate, as used by
`src/src/encode.rs` and `src/src/decode.rs`). -/
inductive SimpleValue where
  | FalseValue
  | TrueValue
  | NullValue
  | Undefined
deriving DecidableEq, Repr

/-- Modelled from the spec: the CBOR value tree (§3 "Data Model"), a tagged
union with variants for unsigned/negative integers, byte strings, text
strings, arrays, maps (ordered key-value pairs), tags and simple values.
The `oasis-cbor-value` crate defining it is not under `src/`. Byte strings
are lists of byte values; text strings are Lean strings. -/
inductive Value where
  | Unsigned : Nat → Value
  | Negative : Nat → Value
  | ByteString : List Nat → Value
  | TextString : String → Value
  | Array : List Value → Value
  | Map : List (Value × Value) → Value
  | Tag : Nat → Value → Value
  | Simple : SimpleValue → Value

/-- Errors raised during decoding (`DecodeError` in `src/src/lib.rs`). -/
inductive DecodeError where
  | ParsingFailed
  | UnexpectedType
  | MissingField
  | UnknownField
  | UnexpectedIntegerSize
deriving DecidableEq, Repr

/-- Comparison of naturals, spelled out. -/
def cmpNat (a b : Nat) : Ordering :=
  if a < b then .lt else if a = b then .eq else .gt

/-- Comparison of two character lists, used for the bytewise part of the
canonical text-string order. -/
def compareCharList : List Char → List Char → Ordering
  | [], [] => .eq
  | [], _ :: _ => .lt
  | _ :: _, [] => .gt
  | a :: as, b :: bs => (cmpNat a.val.toNat b.val.toNat).then (compareCharList as bs)

/-- Comparison of two byte lists, bytewise lexicographic. -/
def compareByteList : List Nat → List Nat → Ordering
  | [], [] => .eq
  | [], _ :: _ => .lt
  | _ :: _, [] => .gt
  | a :: as, b :: bs => (cmpNat a b).then (compareByteList as bs)

/-- Rank of a `SimpleValue` for ordering purposes. -/
def SimpleValue.rank : SimpleValue → Nat
  | .FalseValue => 0
  | .TrueValue => 1
  | .NullValue => 2
  | .Undefined => 3

/-- Rank of the type of a `Value` in the canonical order. -/
def Value.typeRank : Value → Nat
  | .Unsigned _ => 0
  | .Negative _ => 1
  | .ByteString _ => 2
  | .TextString _ => 3
  | .Array _ => 4
  | .Map _ => 5
  | .Tag _ _ => 6
  | .Simple _ => 7

mutual

/-- Modelled from the spec: the canonical total order on `Value` (§3 "Canonical
key ordering": shortest encoded length first, then bytewise lexicographic,
which collapses to unsigned < negative < byte strings < text strings <
arrays < maps, with natural ordering within each).  The implementation in
the `oasis-cbor-value` crate is not under `src/`. -/
def Value.compare : Value → Value → Ordering
  | .Unsigned a, .Unsigned b => cmpNat a b
  | .Negative a, .Negative b => cmpNat a b
  | .ByteString a, .ByteString b =>
      (cmpNat a.length b.length).then (compareByteList a b)
  | .TextString a, .TextString b =>
      (cmpNat a.length b.length).then (compareCharList a.data b.data)
  | .Array a, .Array b =>
      (cmpNat a.length b.length).then (Value.compareList a b)
  | .Map a, .Map b =>
      (cmpNat a.length b.length).then (Value.comparePairList a b)
  | .Tag a v, .Tag b w => (cmpNat a b).then (Value.compare v w)
  | .Simple a, .Simple b => cmpNat a.rank b.rank
  | a, b => cmpNat a.typeRank b.typeRank

/-- Elementwise comparison of value lists. -/
def Value.compareList : List Value → List Value → Ordering
  | [], [] => .eq
  | [], _ :: _ => .lt
  | _ :: _, [] => .gt
  | a :: as, b :: bs => (Value.compare a b).then (Value.compareList as bs)

/-- Elementwise comparison of key-value pair lists. -/
def Value.comparePairList : List (Value × Value) → List (Value × Value) → Ordering
  | [], [] => .eq
  | [], _ :: _ => .lt
  | _ :: _, [] => .gt
  | (ka, va) :: as, (kb, vb) :: bs =>
      (Value.compare ka kb).then ((Value.compare va vb).then (Value.comparePairList as bs))

end

mutual

/-- Structural equality on `Value`, mirroring the derived `PartialEq` used by
the Rust `==` operator in the generated decoders. -/
def Value.beq : Value → Value → Bool
  | .Unsigned a, .Unsigned b => a == b
  | .Negative a, .Negative b => a == b
  | .ByteString a, .ByteString b => a == b
  | .TextString a, .TextString b => a == b
  | .Array a, .Array b => Value.beqList a b
  | .Map a, .Map b => Value.beqPairList a b
  | .Tag a v, .Tag b w => a == b && Value.beq v w
  | .Simple a, .Simple b => a == b
  | _, _ => false

/-- Structural equality on value lists. -/
def Value.beqList : List Value → List Value → Bool
  | [], [] => true
  | a :: as, b :: bs => Value.beq a b && Value.beqList as bs
  | _, _ => false

/-- Structural equality on key-value pair lists. -/
def Value.beqPairList : List (Value × Value) → List (Value × Value) → Bool
  | [], [] => true
  | (ka, va) :: as, (kb, vb) :: bs =>
      Value.beq ka kb && Value.beq va vb && Value.beqPairList as bs
  | _, _ => false

end

mutual

/-- `Value.beq` is reflexive. -/
def Value.beqRefl : ∀ (a : Value), Value.beq a a = true
  | .Unsigned _ => by simp [Value.beq]
  | .Negative _ => by simp [Value.beq]
  | .ByteString _ => by simp [Value.beq]
  | .TextString _ => by simp [Value.beq]
  | .Array a => by simpa [Value.beq] using Value.beqListRefl a
  | .Map a => by simpa [Value.beq] using Value.beqPairListRefl a
  | .Tag _ v => by simpa [Value.beq] using Value.beqRefl v
  | .Simple _ => by simp [Value.beq]

/-- `Value.beqList` is reflexive. -/
def Value.beqListRefl : ∀ (a : List Value), Value.beqList a a = true
  | [] => rfl
  | a :: as => by
      simpa [Value.beqList] using And.intro (Value.beqRefl a) (Value.beqListRefl as)

/-- `Value.beqPairList` is reflexive. -/
def Value.beqPairListRefl : ∀ (a : List (Value × Value)), Value.beqPairList a a = true
  | [] => rfl
  | (k, v) :: as => by
      simpa [Value.beqPairList] using
        And.intro (And.intro (Value.beqRefl k) (Value.beqRefl v)) (Value.beqPairListRefl as)

end

mutual

/-- `Value.beq` is sound for propositional equality. -/
def Value.beqSound : ∀ (a b : Value), Value.beq a b = true → a = b
  | .Unsigned _, b => by cases b <;> simp [Value.beq]
  | .Negative _, b => by cases b <;> simp [Value.beq]
  | .ByteString _, b => by cases b <;> simp [Value.beq]
  | .TextString _, b => by cases b <;> simp [Value.beq]
  | .Array a, b => by
      cases b <;> simp [Value.beq]
      intro h
      exact Value.beqListSound a _ h
  | .Map a, b => by
      cases b <;> simp [Value.beq]
      intro h
      exact Value.beqPairListSound a _ h
  | .Tag n v, b => by
      cases b <;> simp [Value.beq]
      intro hn hv
      exact ⟨hn, Value.beqSound v _ hv⟩
  | .Simple _, b => by cases b <;> simp [Value.beq]

/-- `Value.beqList` is sound for propositional equality. -/
def Value.beqListSound : ∀ (a b : List Value), Value.beqList a b = true → a = b
  | [], [] => by simp
  | [], _ :: _ => by simp [Value.beqList]
  | _ :: _, [] => by simp [Value.beqList]
  | a :: as, b :: bs => by
      simp [Value.beqList]
      intro h1 h2
      exact ⟨Value.beqSound a b h1, Value.beqListSound as bs h2⟩

/-- `Value.beqPairList` is sound for propositional equality. -/
def Value.beqPairListSound :
    ∀ (a b : List (Value × Value)), Value.beqPairList a b = true → a = b
  | [], [] => by simp
  | [], _ :: _ => by simp [Value.beqPairList]
  | _ :: _, [] => by simp [Value.beqPairList]
  | (ka, va) :: as, (kb, vb) :: bs => by
      simp [Value.beqPairList]
      intro h1 h2 h3
      exact ⟨⟨Value.beqSound ka kb h1, Value.beqSound va vb h2⟩,
        Value.beqPairListSound as bs h3⟩

end

/-- Lexicographic comparison of key-value pairs, mirroring the derived `Ord`
on Rust tuples used by `Vec::<(Value, Value)>::sort()`. -/
def Value.comparePair (p q : Value × Value) : Ordering :=
  (Value.compare p.1 q.1).then (Value.compare p.2 q.2)

/-- `≤` on key-value pairs, as a Bool. -/
def pairLE (p q : Value × Value) : Bool :=
  match Value.comparePair p q with
  | .gt => false
  | _ => true

/-- Stable insertion: place `a` after every element `b` with `le b a`. -/
def insertStable {α : Type} (le : α → α → Bool) (a : α) : List α → List α
  | [] => [a]
  | b :: l => if le b a then b :: insertStable le a l else a :: b :: l

/-- Stable sort (insertion sort, processing elements left to right).  Models
the stable `slice::sort` from the Rust standard library: any stable sort by
the same comparison computes the same list. -/
def stableSort {α : Type} (le : α → α → Bool) (l : List α) : List α :=
  l.foldl (fun acc x => insertStable le x acc) []

/-- `map.sort()` on the entry list of a CBOR map (generated decoder,
`src/derive/src/decode.rs` line 130). -/
def mapSort (m : List (Value × Value)) : List (Value × Value) :=
  stableSort pairLE m

/-- The `Encode` trait (`src/src/encode.rs`): `is_empty` has a default body
returning `false`; implementations override it. -/
structure EncodeImpl (α : Type) where
  isEmpty : α → Bool := fun _ => false
  intoCborValue : α → Value

/-- Default body of `Encode::into_optional_cbor_value`
(`src/src/encode.rs` lines 19-27). -/
def EncodeImpl.intoOptionalCborValue {α : Type} (e : EncodeImpl α) (x : α) : Option Value :=
  match e.isEmpty x with
  | true => none
  | false => some (e.intoCborValue x)

/-- The `Decode` trait (`src/src/decode.rs`): `try_default` has a default
body returning `Err(MissingField)`; implementations override it. -/
structure DecodeImpl (α : Type) where
  tryDefault : Except DecodeError α := .error .MissingField
  tryFromCborValue : Value → Except DecodeError α

/-- `Decode::try_from_cbor_value_default` (`src/src/decode.rs` lines 29-39):
null and undefined route to `try_default`, everything else to
`try_from_cbor_value`. -/
def DecodeImpl.tryFromCborValueDefault {α : Type} (d : DecodeImpl α) (v : Value) :
    Except DecodeError α :=
  match v with
  | .Simple .NullValue => d.tryDefault
  | .Simple .Undefined => d.tryDefault
  | _ => d.tryFromCborValue v

/-- `impl Encode for u64` (via the `impl_uint!` macro, `src/src/encode.rs`).
Values of `u64` are modelled as `Nat`. -/
def u64Encode : EncodeImpl Nat :=
  { isEmpty := fun x => x == 0
    intoCborValue := fun x => .Unsigned x }

/-- `impl Decode for u64` (via the `impl_uint!` macro, `src/src/decode.rs`);
`u64::try_from(u64)` is infallible. -/
def u64Decode : DecodeImpl Nat :=
  { tryDefault := .ok 0
    tryFromCborValue := fun v =>
      match v with
      | .Unsigned n => .ok n
      | _ => .error .UnexpectedType }

/-- `impl Encode for u8`: `self as u64` into `Value::Unsigned`. -/
def u8Encode : EncodeImpl Nat :=
  { isEmpty := fun x => x == 0
    intoCborValue := fun x => .Unsigned x }

/-- `impl Decode for u8`: `u8::try_from(u64)` fails above 255 with
`UnexpectedIntegerSize`. -/
def u8Decode : DecodeImpl Nat :=
  { tryDefault := .ok 0
    tryFromCborValue := fun v =>
      match v with
      | .Unsigned n => if n < 256 then .ok n else .error .UnexpectedIntegerSize
      | _ => .error .UnexpectedType }

/-- `impl Encode for bool` (`src/src/encode.rs` lines 143-155). -/
def boolEncode : EncodeImpl Bool :=
  { isEmpty := fun b => !b
    intoCborValue := fun b =>
      if b then .Simple .TrueValue else .Simple .FalseValue }

/-- `impl Decode for bool` (`src/src/decode.rs` lines 141-153). -/
def boolDecode : DecodeImpl Bool :=
  { tryDefault := .ok false
    tryFromCborValue := fun v =>
      match v with
      | .Simple .FalseValue => .ok false
      | .Simple .TrueValue => .ok true
      | _ => .error .UnexpectedType }

/-- `impl Encode for String` (`src/src/encode.rs` lines 157-165). -/
def stringEncode : EncodeImpl String :=
  { isEmpty := fun s => s.isEmpty
    intoCborValue := fun s => .TextString s }

/-- `impl Decode for String` (`src/src/decode.rs` lines 155-166). -/
def stringDecode : DecodeImpl String :=
  { tryDefault := .ok ""
    tryFromCborValue := fun v =>
      match v with
      | .TextString s => .ok s
      | _ => .error .UnexpectedType }

/-- `impl Encode for Vec<u8>` (`src/src/encode.rs` lines 196-200); `is_empty`
comes from the blanket `Vec<T>` implementation. -/
def vecU8Encode : EncodeImpl (List Nat) :=
  { isEmpty := fun l => l.isEmpty
    intoCborValue := fun l => .ByteString l }

/-- `impl Decode for Vec<u8>` (`src/src/decode.rs` lines 181-188);
`try_default` comes from the blanket `Vec<T>` implementation. -/
def vecU8Decode : DecodeImpl (List Nat) :=
  { tryDefault := .ok []
    tryFromCborValue := fun v =>
      match v with
      | .ByteString l => .ok l
      | _ => .error .UnexpectedType }

/-- Elementwise decoding of an array's items
(the `v.into_iter().map(T::try_from_cbor_value).collect()` pattern). -/
def decodeElems {α : Type} (d : DecodeImpl α) : List Value → Except DecodeError (List α)
  | [] => .ok []
  | v :: vs =>
    match d.tryFromCborValue v with
    | .error e => .error e
    | .ok x =>
      match decodeElems d vs with
      | .error e => .error e
      | .ok xs => .ok (x :: xs)

/-- `impl<T: Encode> Encode for Vec<T>` (`src/src/encode.rs` lines 186-194). -/
def vecEncode {α : Type} (e : EncodeImpl α) : EncodeImpl (List α) :=
  { isEmpty := fun l => l.isEmpty
    intoCborValue := fun l => .Array (l.map e.intoCborValue) }

/-- `impl<T: Decode> Decode for Vec<T>` (`src/src/decode.rs` lines 168-179). -/
def vecDecode {α : Type} (d : DecodeImpl α) : DecodeImpl (List α) :=
  { tryDefault := .ok []
    tryFromCborValue := fun v =>
      match v with
      | .Array l => decodeElems d l
      | _ => .error .UnexpectedType }

/-- `impl<T: Decode, const N: usize> Decode for [T; N]` for non-byte element
types (`src/src/decode.rs` lines 190-206): `try_default` is explicitly
`Err(MissingField)` (this type opts out of default recovery); decoding
collects the elements and the final `try_into` fails with `UnexpectedType`
when the length differs from `N`. -/
def fixedArrayDecode {α : Type} (d : DecodeImpl α) (n : Nat) : DecodeImpl (List α) :=
  { tryDefault := .error .MissingField
    tryFromCborValue := fun v =>
      match v with
      | .Array l =>
        match decodeElems d l with
        | .error e => .error e
        | .ok xs => if xs.length == n then .ok xs else .error .UnexpectedType
      | _ => .error .UnexpectedType }

/-- `impl<T: Encode> Encode for Option<T>` (`src/src/encode.rs` lines 218-229). -/
def optionEncode {α : Type} (e : EncodeImpl α) : EncodeImpl (Option α) :=
  { isEmpty := fun o => o.isNone
    intoCborValue := fun o =>
      match o with
      | some x => e.intoCborValue x
      | none => .Simple .NullValue }

/-- `impl<T: Decode> Decode for Option<T>` (`src/src/decode.rs` lines 221-232). -/
def optionDecode {α : Type} (d : DecodeImpl α) : DecodeImpl (Option α) :=
  { tryDefault := .ok none
    tryFromCborValue := fun v =>
      match v with
      | .Simple .NullValue => .ok none
      | _ =>
        match d.tryFromCborValue v with
        | .error e => .error e
        | .ok x => .ok (some x) }

/-- `impl Encode for ()` (`src/src/encode.rs` lines 296-304). -/
def unitEncode : EncodeImpl Unit :=
  { isEmpty := fun _ => true
    intoCborValue := fun _ => .Simple .NullValue }

/-- `impl Decode for ()` (`src/src/decode.rs` lines 308-320). -/
def unitDecode : DecodeImpl Unit :=
  { tryDefault := .ok ()
    tryFromCborValue := fun v =>
      match v with
      | .Simple .NullValue => .ok ()
      | .Simple .Undefined => .ok ()
      | _ => .error .UnexpectedType }

/-- `impl Encode for Value` (`src/src/encode.rs` lines 231-242). -/
def valueEncode : EncodeImpl Value :=
  { isEmpty := fun v =>
      match v with
      | .Simple .NullValue => true
      | .Simple .Undefined => true
      | _ => false
    intoCborValue := fun v => v }

/-- `impl Decode for Value` (`src/src/decode.rs` lines 234-242):
`try_default` recovers to `Null`. -/
def valueDecode : DecodeImpl Value :=
  { tryDefault := .ok (.Simple .NullValue)
    tryFromCborValue := fun v => .ok v }

/-- Big-endian byte representation with exactly `n` bytes
(`u128::to_be_bytes` for `n = 16`). -/
def toBeBytes : Nat → Nat → List Nat
  | 0, _ => []
  | n + 1, x => toBeBytes n (x / 256) ++ [x % 256]

/-- The integer denoted by a big-endian byte list (`u128::from_be_bytes`). -/
def fromBeBytes (l : List Nat) : Nat :=
  l.foldl (fun acc b => acc * 256 + b) 0

/-- Bit length, computed with structural fuel so that the kernel can evaluate
it; `sizeFuel f x` equals `Nat.size x` whenever `x < 2^f`. -/
def sizeFuel : Nat → Nat → Nat
  | _, 0 => 0
  | 0, _ + 1 => 0
  | f + 1, x + 1 => sizeFuel f ((x + 1) / 2) + 1

/-- `u128::leading_zeros` for a value `x < 2^128`: the number of leading zero
bits, i.e. 128 minus the bit length. -/
def u128LeadingZeros (x : Nat) : Nat := 128 - sizeFuel 129 x

/-- The byte list emitted by `impl Encode for u128` (`src/src/encode.rs`
lines 123-131): `self.to_be_bytes()[self.leading_zeros() as usize / 8..]`. -/
def u128Bytes (x : Nat) : List Nat :=
  (toBeBytes 16 x).drop (u128LeadingZeros x / 8)

/-- `impl Encode for u128` (`src/src/encode.rs` lines 123-131). -/
def u128Encode : EncodeImpl Nat :=
  { isEmpty := fun x => x == 0
    intoCborValue := fun x => .ByteString (u128Bytes x) }

/-- `impl Decode for u128` (`src/src/decode.rs` lines 108-139): byte strings
longer than 16 bytes are rejected with `UnexpectedIntegerSize`, shorter
ones are left-padded with zero bytes. -/
def u128Decode : DecodeImpl Nat :=
  { tryDefault := .ok 0
    tryFromCborValue := fun v =>
      match v with
      | .ByteString l =>
        match cmpNat l.length 16 with
        | .gt => .error .UnexpectedIntegerSize
        | .lt => .ok (fromBeBytes (List.replicate (16 - l.length) 0 ++ l))
        | .eq => .ok (fromBeBytes l)
      | _ => .error .UnexpectedType }

/-- `try_from_cbor_value` of the pair instance generated by
`impl_for_tuples` (`src/src/decode.rs` lines 42-56): each component calls
`values.remove(0)`, which panics when the vector is already empty; a panic
is modelled as `none`.  No length check is performed, so elements beyond
the arity are dropped. -/
def tuple2TryFromCborValue {α β : Type}
    (da : Value → Except DecodeError α) (db : Value → Except DecodeError β) :
    Value → Option (Except DecodeError (α × β))
  | .Array values =>
    match values with
    | [] => none
    | v0 :: rest =>
      match da v0 with
      | .error e => some (.error e)
      | .ok a =>
        match rest with
        | [] => none
        | v1 :: _ =>
          match db v1 with
          | .error e => some (.error e)
          | .ok b => some (.ok (a, b))
  | _ => some (.error .UnexpectedType)

/-- `destructure_cbor_map_peek_value_strict` (`src/src/macros.rs` lines 7-28).
The peekable iterator is modelled by the list of remaining entries, which is
returned alongside the result. -/
def destructureCborMapPeekValueStrict (it : List (Value × Value)) (needle : Value) :
    Except DecodeError (Option Value × List (Value × Value)) :=
  match it with
  | [] => .ok (none, it)
  | item :: rest =>
    match Value.compare item.1 needle with
    | .lt => .error .UnknownField
    | .eq => .ok (some item.2, rest)
    | .gt => .ok (none, it)

/-- One field of a map-carrier struct at a concrete encoding invocation
(`derive_struct`, `src/derive/src/encode.rs` lines 117-218).  `key` is the
field's CBOR key, `skip`/`optional` its attributes, `skipSerIf` the result
of the user predicate when `skip_serializing_if` is present, `enc` the
value of `Encode::into_cbor_value` on the (possibly `serialize_with`-
transformed) field value and `encOpt` the value of
`Encode::into_optional_cbor_value` on it. -/
structure EncFieldInst where
  key : Value
  skip : Bool := false
  optional : Bool := false
  skipSerIf : Option Bool := none
  enc : Value
  encOpt : Option Value

/-- The entries one field contributes to the emitted map, following the
generated pushes in `derive_struct` (`src/derive/src/encode.rs` lines
124-194): `skip` fields push nothing; `optional` fields without a predicate
push `into_optional_cbor_value` when it is `Some`; `optional` fields with a
predicate push unless the predicate holds; all other fields always push. -/
def encodeFieldPushes (f : EncFieldInst) : List (Value × Value) :=
  if f.skip then []
  else if f.optional then
    match f.skipSerIf with
    | none =>
      match f.encOpt with
      | some v => [(f.key, v)]
      | none => []
    | some pred => if pred then [] else [(f.key, f.enc)]
  else [(f.key, f.enc)]

/-- The map emitted by the derived encoder for a map-carrier struct: the
fields' pushes in declaration order (`derive_struct` collects
`field_map_items` in declaration order and wraps them in `Value::Map`). -/
def encodeStructMap (fields : List EncFieldInst) : Value :=
  .Map (fields.foldr (fun f acc => encodeFieldPushes f ++ acc) [])

/-- `maybe_wrap_map` (`src/derive/src/encode.rs` lines 240-260): untagged
enums and `missing` variants keep the inner encoding; internally tagged
enums push `(tag, key)` onto the inner map's items (`none` models the
`unreachable!` panic when the inner encoding is not a map); externally
tagged enums wrap the inner encoding in a singleton map. -/
def maybeWrapMap (untagged missing : Bool) (tag : Option Value) (key inner : Value) :
    Option Value :=
  if untagged || missing then some inner
  else
    match tag with
    | some t =>
      match inner with
      | .Map items => some (.Map (items ++ [(t, key)]))
      | _ => none
    | none => some (.Map [(key, inner)])

/-- One field of a map-carrier struct on the decode side (`derive_struct`,
`src/derive/src/decode.rs` lines 126-166): `key` is the field's CBOR key,
`skip` its attribute, `dflt` the `Default::default()` value used for
skipped fields, and `dec` the field's `try_from_cbor_value_default` (composed
with the user function when `deserialize_with` is present).  All fields are
decoded into a common type `α`. -/
structure DecFieldInst (α : Type) where
  key : Value
  skip : Bool := false
  dflt : α
  dec : Value → Except DecodeError α

/-- `≤` on decode fields by CBOR key, used for the schema-build-time field
sort (`fields.sort_by(|a, b| a.to_cbor_key() ...)`,
`src/derive/src/decode.rs` line 137). -/
def fieldLE {α : Type} (f g : DecFieldInst α) : Bool :=
  match Value.compare f.key g.key with
  | .gt => false
  | _ => true

/-- The per-field extraction loop of the generated map-carrier struct decoder
(`src/derive/src/decode.rs` lines 139-163): skipped fields take their
default without touching the iterator; other fields run the strict peek
destructure and decode the extracted value, substituting `Null` when the
field is absent. -/
def decodeFieldsLoop {α : Type} (fields : List (DecFieldInst α))
    (it : List (Value × Value)) :
    Except DecodeError (List α × List (Value × Value)) :=
  match fields with
  | [] => .ok ([], it)
  | f :: fs =>
    if f.skip then
      match decodeFieldsLoop fs it with
      | .error e => .error e
      | .ok (xs, it') => .ok (f.dflt :: xs, it')
    else
      match destructureCborMapPeekValueStrict it f.key with
      | .error e => .error e
      | .ok (v, it') =>
        match f.dec (v.getD (.Simple .NullValue)) with
        | .error e => .error e
        | .ok x =>
          match decodeFieldsLoop fs it' with
          | .error e => .error e
          | .ok (xs, it'') => .ok (x :: xs, it'')

/-- The generated map-carrier struct decoder (`derive_struct`,
`src/derive/src/decode.rs` lines 126-189): extract the entry list from a
`Map` (or fail `UnexpectedType`), sort it, sort the schema fields by key,
run the extraction loop, and finally fail `UnknownField` when entries
remain and `allow_unknown` is not set. -/
def decodeStructMap {α : Type} (allowUnknown : Bool) (fields : List (DecFieldInst α)) :
    Value → Except DecodeError (List α)
  | .Map m =>
    match decodeFieldsLoop (stableSort fieldLE fields) (mapSort m) with
    | .error e => .error e
    | .ok (xs, it) =>
      if !allowUnknown && !it.isEmpty then .error .UnknownField else .ok xs
  | _ => .error .UnexpectedType

/-- One non-unit, non-embedded variant of an internally tagged enum
(`src/derive/src/decode.rs` lines 250-320): `key` is the variant's CBOR
key, `missing` its attribute and `dec` the generated inner decoder already
producing the enum value. -/
structure TaggedVariant (α : Type) where
  key : Value
  missing : Bool := false
  dec : Value → Except DecodeError α

/-- Find and remove the first entry whose key equals the tag
(`map.iter().enumerate().find(|(_, v)| v.0 == tag)` followed by
`map.remove(index)`, `src/derive/src/decode.rs` lines 373-381); yields the
entry's value — `Undefined` when absent — and the remaining entries. -/
def extractTagEntry (tag : Value) : List (Value × Value) → Value × List (Value × Value)
  | [] => (.Simple .Undefined, [])
  | p :: rest =>
    if Value.beq p.1 tag then (p.2, rest)
    else
      let r := extractTagEntry tag rest
      (r.1, p :: r.2)

/-- The cascade of `if key == K(v) { return ... }` tests generated for the
variants of an internally tagged enum; the `missing` variant also matches
`Undefined` (`src/derive/src/decode.rs` lines 294-318). -/
def matchTaggedVariants {α : Type} (variants : List (TaggedVariant α))
    (key value : Value) : Except DecodeError α :=
  match variants with
  | [] => .error .UnknownField
  | v :: rest =>
    if Value.beq key v.key || (v.missing && Value.beq key (.Simple .Undefined)) then
      v.dec value
    else matchTaggedVariants rest key value

/-- The generated decoder for an internally tagged enum
(`src/derive/src/decode.rs` lines 366-391): on a `Map`, remove the tag
entry (its value becomes the discriminator, `Undefined` when absent), then
try the variants in declaration order; anything else is `UnexpectedType`. -/
def decodeInternallyTagged {α : Type} (tag : Value) (variants : List (TaggedVariant α)) :
    Value → Except DecodeError α
  | .Map m =>
    let r := extractTagEntry tag m
    matchTaggedVariants variants r.1 (.Map r.2)
  | _ => .error .UnexpectedType

/-- One non-unit, non-embedded variant of an externally tagged enum on the
decode side (`src/derive/src/decode.rs` lines 250-320): `key` is the
variant's CBOR key and `dec` the generated inner decoder already producing
the enum value (errors of the inner decode propagate out). -/
structure DirectVariant (α : Type) where
  key : Value
  dec : Value → Except DecodeError α

/-- One unit variant on the decode side (`src/derive/src/decode.rs` lines
219-246): the whole value is compared against the variant's key or explicit
discriminant. -/
structure UnitVariant (α : Type) where
  discriminant : Value
  val : α

/-- The cascade of `if key == K(v) { return Ok(...) }` tests generated for
the non-unit variants; `none` means the cascade fell through. -/
def matchDirectVariants {α : Type} (variants : List (DirectVariant α))
    (key value : Value) : Option (Except DecodeError α) :=
  match variants with
  | [] => none
  | v :: rest =>
    if Value.beq key v.key then some (v.dec value)
    else matchDirectVariants rest key value

/-- The cascade of `if let Ok(result) = ... { return Ok(...) }` tests
generated for the `embed` variants (`src/derive/src/decode.rs` lines
353-363): the first embedded decode that succeeds wins. -/
def tryEmbeddedVariants {α : Type} (embs : List (Value → Except DecodeError α))
    (v : Value) : Option α :=
  match embs with
  | [] => none
  | e :: rest =>
    match e v with
    | .ok r => some r
    | .error _ => tryEmbeddedVariants rest v

/-- The cascade of `if value == discriminant { return Ok(...) }` tests
generated for the unit variants. -/
def matchUnitVariants {α : Type} (units : List (UnitVariant α)) (v : Value) : Option α :=
  match units with
  | [] => none
  | u :: rest =>
    if Value.beq v u.discriminant then some u.val
    else matchUnitVariants rest v

/-- The generated decoder for an externally tagged enum with at least one
non-unit variant (`src/derive/src/decode.rs` lines 411-433): a map must
have exactly one entry, whose key is matched against the non-unit variants
first; only if none matches is the entry re-wrapped into a map and offered
to the `embed` variants.  Any other value is matched against the unit
variants, then against the `embed` variants. -/
def decodeExternallyTagged {α : Type} (direct : List (DirectVariant α))
    (embs : List (Value → Except DecodeError α)) (units : List (UnitVariant α)) :
    Value → Except DecodeError α
  | .Map m =>
    match m with
    | [(key, value)] =>
      match matchDirectVariants direct key value with
      | some r => r
      | none =>
        match tryEmbeddedVariants embs (.Map [(key, value)]) with
        | some r => .ok r
        | none => .error .UnknownField
    | _ => .error .UnknownField
  | v =>
    match matchUnitVariants units v with
    | some r => .ok r
    | none =>
      match tryEmbeddedVariants embs v with
      | some r => .ok r
      | none => .error .UnknownField

/-- The test struct `B { foo: u64, bytes: Vec<u8> }` from
`src/tests/derive_test.rs`. -/
structure BStruct where
  foo : Nat
  bytes : List Nat
deriving DecidableEq, Repr

/-- The encoder generated by `derive(Encode)` for `B`: one push per field, in
declaration order (`derive_struct`, `src/derive/src/encode.rs` lines
117-218). -/
def encodeB (b : BStruct) : Value :=
  .Map [(.TextString "foo", u64Encode.intoCborValue b.foo),
        (.TextString "bytes", vecU8Encode.intoCborValue b.bytes)]

/-- The decoder generated by `derive(Decode)` for `B`: extract and sort the
map, then destructure the fields in canonical key order ("foo" sorts before
"bytes"), substituting `Null` for absent fields, and reject leftovers
(`derive_struct`, `src/derive/src/decode.rs` lines 126-189). -/
def decodeB (value : Value) : Except DecodeError BStruct :=
  match value with
  | .Map m =>
    let fields := mapSort m
    match destructureCborMapPeekValueStrict fields (.TextString "foo") with
    | .error e => .error e
    | .ok (v, it) =>
      match u64Decode.tryFromCborValueDefault (v.getD (.Simple .NullValue)) with
      | .error e => .error e
      | .ok foo =>
        match destructureCborMapPeekValueStrict it (.TextString "bytes") with
        | .error e => .error e
        | .ok (v2, it2) =>
          match vecU8Decode.tryFromCborValueDefault (v2.getD (.Simple .NullValue)) with
          | .error e => .error e
          | .ok bytes =>
            if it2.isEmpty then .ok ⟨foo, bytes⟩ else .error .UnknownField
  | _ => .error .UnexpectedType

/-- The encoder generated for the test struct
`Order { second: u64, first: u64, thirdd: u64 }` from
`src/tests/derive_test.rs`: pushes in declaration order. -/
def encodeOrder (second first thirdd : Nat) : Value :=
  encodeStructMap
    [{ key := .TextString "second", enc := u64Encode.intoCborValue second,
       encOpt := u64Encode.intoOptionalCborValue second },
     { key := .TextString "first", enc := u64Encode.intoCborValue first,
       encOpt := u64Encode.intoOptionalCborValue first },
     { key := .TextString "thirdd", enc := u64Encode.intoCborValue thirdd,
       encOpt := u64Encode.intoOptionalCborValue thirdd }]

/-- Whether the entries of a map are strictly sorted ascending by key in the
canonical order. -/
def keysStrictlySorted : List (Value × Value) → Bool
  | [] => true
  | [_] => true
  | p :: q :: rest =>
    (match Value.compare p.1 q.1 with
     | .lt => true
     | _ => false) && keysStrictlySorted (q :: rest)

/-- The entry list of a map value (empty for non-maps). -/
def mapEntries : Value → List (Value × Value)
  | .Map m => m
  | _ => []

/-- The generated decoder of a map-carrier struct (or struct variant) with a
single non-skipped field: extract and sort the map, destructure the field's
key, decode with `Null` substituted when absent, reject leftovers. -/
def decodeStruct1 {γ : Type} (key : Value) (fdec : Value → Except DecodeError γ) :
    Value → Except DecodeError γ
  | .Map m =>
    let fields := mapSort m
    match destructureCborMapPeekValueStrict fields key with
    | .error e => .error e
    | .ok (v, it) =>
      match fdec (v.getD (.Simple .NullValue)) with
      | .error e => .error e
      | .ok x => if it.isEmpty then .ok x else .error .UnknownField
  | _ => .error .UnexpectedType

/-- The internally tagged test enum (`src/tests/derive_test.rs`):
`#[cbor(tag = "v")] enum InternallyTagged { #[cbor(rename = 0, missing)]
V0 { foo: u64 }, #[cbor(rename = 1)] V1 { bar: u64 } }`. -/
inductive ITagged where
  | V0 (foo : Nat)
  | V1 (bar : Nat)
deriving DecidableEq, Repr

/-- The tag key `"v"`. -/
def tagKeyV : Value := .TextString "v"

/-- The encoder generated for `InternallyTagged`: each variant's field map is
built in declaration order; `maybe_wrap_map` then leaves the `missing`
variant's map alone and appends the `(tag, key)` entry for the others
(`src/derive/src/encode.rs` lines 240-260, inlined). -/
def encodeITagged : ITagged → Value
  | .V0 foo => .Map [(.TextString "foo", u64Encode.intoCborValue foo)]
  | .V1 bar => .Map ([(.TextString "bar", u64Encode.intoCborValue bar)] ++ [(tagKeyV, .Unsigned 1)])

/-- The decoder generated for `InternallyTagged`
(`src/derive/src/decode.rs` lines 366-391). -/
def decodeITagged : Value → Except DecodeError ITagged :=
  decodeInternallyTagged tagKeyV
    [⟨.Unsigned 0, true, fun value =>
        match decodeStruct1 (.TextString "foo") u64Decode.tryFromCborValueDefault value with
        | .error e => .error e
        | .ok x => .ok (.V0 x)⟩,
     ⟨.Unsigned 1, false, fun value =>
        match decodeStruct1 (.TextString "bar") u64Decode.tryFromCborValueDefault value with
        | .error e => .error e
        | .ok x => .ok (.V1 x)⟩]

/-- The embedded test enum (`src/tests/derive_test.rs`):
`enum EmbedChild { D(String), E(u64), C(String) }`. -/
inductive EChild where
  | D (s : String)
  | E (n : Nat)
  | C (s : String)
deriving DecidableEq, Repr

/-- The embedding test enum (`src/tests/derive_test.rs`):
`enum EmbedParent { A(String), #[cbor(embed)] B(EmbedChild), C(u64) }`. -/
inductive EParent where
  | A (s : String)
  | B (c : EChild)
  | C (n : Nat)
deriving DecidableEq, Repr

/-- The decoder generated for `EmbedChild` (externally tagged, three newtype
variants, no unit and no embedded variants). -/
def decodeEChildCore : Value → Except DecodeError EChild :=
  decodeExternallyTagged
    [⟨.TextString "D", fun v =>
        match stringDecode.tryFromCborValueDefault v with
        | .error e => .error e
        | .ok s => .ok (.D s)⟩,
     ⟨.TextString "E", fun v =>
        match u64Decode.tryFromCborValueDefault v with
        | .error e => .error e
        | .ok n => .ok (.E n)⟩,
     ⟨.TextString "C", fun v =>
        match stringDecode.tryFromCborValueDefault v with
        | .error e => .error e
        | .ok s => .ok (.C s)⟩]
    [] []

/-- The `Decode` implementation generated for `EmbedChild`: enums do not
override `try_default`, so the trait default (`Err(MissingField)`) stays. -/
def echildDecode : DecodeImpl EChild :=
  { tryFromCborValue := decodeEChildCore }

/-- The decoder generated for `EmbedParent`: two direct newtype variants `A`
and `C` tried first, then the embedded `B(EmbedChild)` as fallback
(`src/derive/src/decode.rs` lines 322-364 and 393-433). -/
def decodeEParentCore : Value → Except DecodeError EParent :=
  decodeExternallyTagged
    [⟨.TextString "A", fun v =>
        match stringDecode.tryFromCborValueDefault v with
        | .error e => .error e
        | .ok s => .ok (.A s)⟩,
     ⟨.TextString "C", fun v =>
        match u64Decode.tryFromCborValueDefault v with
        | .error e => .error e
        | .ok n => .ok (.C n)⟩]
    [fun v =>
      match echildDecode.tryFromCborValueDefault v with
      | .error e => .error e
      | .ok c => .ok (.B c)]
    []

deriving instance DecidableEq for Except

/-- The `Decode` implementation generated for `B`: derived structs without
`no_default` override `try_default` with `Ok(Default::default())`
(`src/derive/src/decode.rs` lines 34-43); `from_value` enters through
`try_from_cbor_value_default` (`src/src/lib.rs` lines 64-72). -/
def bDecode : DecodeImpl BStruct :=
  { tryDefault := .ok ⟨0, []⟩
    tryFromCborValue := decodeB }

/-- `from_value::<B>` (`src/src/lib.rs` lines 64-72). -/
def fromValueB : Value → Except DecodeError BStruct :=
  bDecode.tryFromCborValueDefault

/-! ## Theorems -/

/-- C7: For every `Decode` type, `try_from_cbor_value_default(v)` returns
`try_default()` when `v` is `Null` or `Undefined` — which yields the type's
default value (e.g. `0` for `u64`), or the `MissingField` error for types
that opt out (e.g. non-byte fixed-size arrays) — and returns
`try_from_cbor_value(v)` for every other value; consequently `Null` and
`Undefined` inputs are interchangeable at this entry point. -/
theorem c7_default_entry_point :
    (∀ (α : Type) (d : DecodeImpl α),
        d.tryFromCborValueDefault (.Simple .NullValue) = d.tryDefault
        ∧ d.tryFromCborValueDefault (.Simple .Undefined) = d.tryDefault
        ∧ (∀ v : Value, v ≠ .Simple .NullValue → v ≠ .Simple .Undefined →
            d.tryFromCborValueDefault v = d.tryFromCborValue v)
        ∧ d.tryFromCborValueDefault (.Simple .NullValue)
            = d.tryFromCborValueDefault (.Simple .Undefined))
    ∧ u64Decode.tryDefault = .ok 0
    ∧ (fixedArrayDecode u64Decode 3).tryDefault = .error .MissingField := by
  refine ⟨fun α d => ⟨rfl, rfl, fun v h1 h2 => ?_, rfl⟩, rfl, rfl⟩
  cases v with
  | Simple s => cases s <;> first | rfl | exact absurd rfl h1 | exact absurd rfl h2
  | _ => rfl

/-- Witness for C7 at concrete inputs: `u64` decoding maps both `Null` and
`Undefined` to the default `0`, and a non-null value decodes normally. -/
theorem c7_witness :
    u64Decode.tryFromCborValueDefault (.Simple .NullValue) = .ok 0
    ∧ u64Decode.tryFromCborValueDefault (.Unsigned 7) = .ok 7 := by
  have h := c7_default_entry_point
  refine ⟨?_, ?_⟩
  · rw [(h.1 Nat u64Decode).1, h.2.1]
  · rw [(h.1 Nat u64Decode).2.2.1 (.Unsigned 7) (by intro hh; cases hh) (by intro hh; cases hh)]
    rfl

/-- C8: the pair instance of `Decode` generated by `impl_for_tuples` is not
the total length-checked decoder the claim describes: surplus array
elements are silently dropped, and arrays shorter than the arity make
`values.remove(0)` panic (modelled by `none`); only non-arrays produce the
claimed `UnexpectedType` error. -/
theorem c8_tuple_decode_behavior :
    tuple2TryFromCborValue u64Decode.tryFromCborValue u64Decode.tryFromCborValue
        (.Array [.Unsigned 1, .Unsigned 2, .Unsigned 3]) = some (.ok (1, 2))
    ∧ tuple2TryFromCborValue u64Decode.tryFromCborValue u64Decode.tryFromCborValue
        (.Array [.Unsigned 1, .Unsigned 2]) = some (.ok (1, 2))
    ∧ tuple2TryFromCborValue u64Decode.tryFromCborValue u64Decode.tryFromCborValue
        (.Array [.Unsigned 1]) = none
    ∧ tuple2TryFromCborValue u64Decode.tryFromCborValue u64Decode.tryFromCborValue
        (.Array []) = none
    ∧ tuple2TryFromCborValue u64Decode.tryFromCborValue u64Decode.tryFromCborValue
        (.Unsigned 5) = some (.error .UnexpectedType) := by
  refine ⟨rfl, rfl, rfl, rfl, rfl⟩

/-- C3: the map-carrier struct decoder walks the sorted map against the
sorted field list using the strict peek destructure: equal keys are
consumed and decoded; a greater key means the field is missing and the
field decoder (its `try_from_cbor_value_default`, stored in
`DecFieldInst.dec`) is applied to `Null`; a smaller key fails with
`UnknownField`; and remaining entries after all fields are processed fail
with `UnknownField` unless `allow_unknown` is set. -/
theorem c3_sorted_merge_destructure :
    (∀ needle : Value, destructureCborMapPeekValueStrict [] needle = .ok (none, []))
    ∧ (∀ (k v : Value) (rest : List (Value × Value)) (needle : Value),
        Value.compare k needle = .eq →
        destructureCborMapPeekValueStrict ((k, v) :: rest) needle = .ok (some v, rest))
    ∧ (∀ (k v : Value) (rest : List (Value × Value)) (needle : Value),
        Value.compare k needle = .gt →
        destructureCborMapPeekValueStrict ((k, v) :: rest) needle = .ok (none, (k, v) :: rest))
    ∧ (∀ (k v : Value) (rest : List (Value × Value)) (needle : Value),
        Value.compare k needle = .lt →
        destructureCborMapPeekValueStrict ((k, v) :: rest) needle = .error .UnknownField)
    ∧ (∀ (α : Type) (f : DecFieldInst α) (fs : List (DecFieldInst α))
        (it : List (Value × Value)),
        f.skip = false →
        destructureCborMapPeekValueStrict it f.key = .ok (none, it) →
        decodeFieldsLoop (f :: fs) it =
          match f.dec (.Simple .NullValue) with
          | .error e => .error e
          | .ok x =>
            match decodeFieldsLoop fs it with
            | .error e => .error e
            | .ok (xs, it') => .ok (x :: xs, it'))
    ∧ (∀ (α : Type) (aU : Bool) (fields : List (DecFieldInst α))
        (m : List (Value × Value)) (xs : List α) (it : List (Value × Value)),
        decodeFieldsLoop (stableSort fieldLE fields) (mapSort m) = .ok (xs, it) →
        decodeStructMap aU fields (.Map m) =
          if !aU && !it.isEmpty then .error .UnknownField else .ok xs) := by
  refine ⟨fun _ => rfl, ?_, ?_, ?_, ?_, ?_⟩
  · intro k v rest needle h
    simp [destructureCborMapPeekValueStrict, h]
  · intro k v rest needle h
    simp [destructureCborMapPeekValueStrict, h]
  · intro k v rest needle h
    simp [destructureCborMapPeekValueStrict, h]
  · intro α f fs it hskip hdes
    simp [decodeFieldsLoop, hskip, hdes]
  · intro α aU fields m xs it h
    simp only [decodeStructMap, h]

/-- Witness for C3: destructuring a singleton map at its own key consumes
the entry. -/
theorem c3_witness :
    Value.compare (.Unsigned 1) (.Unsigned 1) = .eq
    ∧ destructureCborMapPeekValueStrict [(.Unsigned 1, .Unsigned 7)] (.Unsigned 1)
        = .ok (some (.Unsigned 7), []) :=
  ⟨by decide,
   c3_sorted_merge_destructure.2.1 (.Unsigned 1) (.Unsigned 7) [] (.Unsigned 1) (by decide)⟩

/-- C2 counterexample: for the test struct `Order { second, first, thirdd }`
(whose declared order is not the canonical key order) the derived encoder
emits a `Map` whose keys are NOT sorted ascending — sorting does not happen
at emission time. -/
theorem c2_counterexample_unsorted_emission :
    keysStrictlySorted (mapEntries (encodeOrder 1 2 3)) = false := by decide

/-- C2 amended: the derived encoder for a map-carrier struct emits one entry
per plain (non-`skip`, non-`optional`) field, with the declared field keys
in declaration order; the map is sorted not at emission time but later, by
the byte writer.  For an internally tagged variant the tag entry is
appended after the inner entries (`maybe_wrap_map`). -/
theorem c2_declaration_order_amended :
    (∀ fields : List EncFieldInst,
      (∀ f ∈ fields, f.skip = false ∧ f.optional = false) →
      (mapEntries (encodeStructMap fields)).map Prod.fst = fields.map EncFieldInst.key)
    ∧ (∀ (items : List (Value × Value)) (tag key : Value),
        maybeWrapMap false false (some tag) key (.Map items)
          = some (.Map (items ++ [(tag, key)]))) := by
  constructor
  · intro fields h
    induction fields with
    | nil => rfl
    | cons f fs ih =>
      have hf := h f (List.mem_cons_self f fs)
      have hrest : ∀ g ∈ fs, g.skip = false ∧ g.optional = false :=
        fun g hg => h g (List.mem_cons_of_mem f hg)
      have ih2 := ih hrest
      have hp : encodeFieldPushes f = [(f.key, f.enc)] := by
        simp [encodeFieldPushes, hf.1, hf.2]
      simp only [encodeStructMap, mapEntries, List.foldr_cons] at ih2 ⊢
      simp [hp, ih2]
  · intro items tag key
    rfl

/-- Witness for C2 amended: a two-field struct declared in non-canonical
order emits exactly its declared keys in declaration order. -/
theorem c2_witness :
    (mapEntries (encodeOrder 1 2 3)).map Prod.fst
      = [.TextString "second", .TextString "first", .TextString "thirdd"] := by
  have h := c2_declaration_order_amended.1
    [{ key := .TextString "second", enc := u64Encode.intoCborValue 1,
       encOpt := u64Encode.intoOptionalCborValue 1 },
     { key := .TextString "first", enc := u64Encode.intoCborValue 2,
       encOpt := u64Encode.intoOptionalCborValue 2 },
     { key := .TextString "thirdd", enc := u64Encode.intoCborValue 3,
       encOpt := u64Encode.intoOptionalCborValue 3 }]
    (by
      intro f hf
      simp only [List.mem_cons, List.not_mem_nil, or_false] at hf
      rcases hf with rfl | rfl | rfl <;> exact ⟨rfl, rfl⟩)
  simpa [encodeOrder] using h

/-- C5 counterexample: an `optional` `u64` field holding `0` (no
`skip_serializing_if`) is omitted from the emitted map even though its CBOR
encoding is `Unsigned 0`, not `Null` — the omission criterion is the
type's `is_empty`, not "encoding is Null". -/
theorem c5_counterexample_zero_omitted :
    encodeStructMap
        [{ key := .TextString "foo", optional := true,
           enc := u64Encode.intoCborValue 0,
           encOpt := u64Encode.intoOptionalCborValue 0 }] = .Map []
    ∧ u64Encode.intoCborValue 0 ≠ .Simple .NullValue := by
  exact ⟨rfl, fun h => Value.noConfusion h⟩

/-- C5 amended: an `optional` field without `skip_serializing_if` is emitted
exactly when `into_optional_cbor_value` returns `Some`, i.e. exactly when
the value's `is_empty` is false (for `Option`, `Value` and unit-likes this
coincides with "the encoding is `Null`", but integers `0`, empty strings
and empty containers are also omitted although their encodings are not
`Null`). -/
theorem c5_optional_emission_amended :
    ∀ (γ : Type) (e : EncodeImpl γ) (x : γ) (key : Value),
      encodeFieldPushes
          { key := key, optional := true,
            enc := e.intoCborValue x, encOpt := e.intoOptionalCborValue x }
        = if e.isEmpty x then [] else [(key, e.intoCborValue x)] := by
  intro γ e x key
  by_cases h : e.isEmpty x = true
  · simp [encodeFieldPushes, EncodeImpl.intoOptionalCborValue, h]
  · simp only [Bool.not_eq_true] at h
    simp [encodeFieldPushes, EncodeImpl.intoOptionalCborValue, h]

/-- C6: internally tagged encoding folds the tag entry `(tag, K(v))` into the
variant's inner map, except for the `missing` variant which keeps its inner
encoding unchanged; on decode the first entry with the tag key is removed
and becomes the discriminator (`Undefined` when absent), and the `missing`
variant matches the `Undefined` discriminator.  Instantiated on the test
enum `InternallyTagged` with `tag = "v"`, `V0 { foo } (rename 0, missing)`
and `V1 { bar } (rename 1)`. -/
theorem c6_internally_tagged :
    (∀ (items : List (Value × Value)) (tag key : Value),
      maybeWrapMap false false (some tag) key (.Map items)
        = some (.Map (items ++ [(tag, key)])))
    ∧ (∀ (inner tag key : Value),
        maybeWrapMap false true (some tag) key inner = some inner)
    ∧ (∀ (tag : Value) (m : List (Value × Value)),
        (∀ p ∈ m, Value.beq p.1 tag = false) →
        extractTagEntry tag m = (.Simple .Undefined, m))
    ∧ (∀ (tag v : Value) (pre post : List (Value × Value)),
        (∀ p ∈ pre, Value.beq p.1 tag = false) →
        extractTagEntry tag (pre ++ (tag, v) :: post) = (v, pre ++ post))
    ∧ decodeITagged (.Map [(.TextString "foo", .Unsigned 42)]) = .ok (.V0 42)
    ∧ encodeITagged (.V0 42) = .Map [(.TextString "foo", .Unsigned 42)]
    ∧ decodeITagged (.Map [(tagKeyV, .Unsigned 1), (.TextString "bar", .Unsigned 42)])
        = .ok (.V1 42)
    ∧ decodeITagged (.Map [(.TextString "bar", .Unsigned 42), (tagKeyV, .Unsigned 1)])
        = .ok (.V1 42)
    ∧ encodeITagged (.V1 42)
        = .Map [(.TextString "bar", .Unsigned 42), (tagKeyV, .Unsigned 1)] := by
  refine ⟨fun _ _ _ => rfl, ?_, ?_, ?_, by decide, rfl, by decide, by decide, rfl⟩
  · intro inner tag key
    simp [maybeWrapMap]
  · intro tag m h
    induction m with
    | nil => rfl
    | cons p rest ih =>
      have hp := h p (List.mem_cons_self p rest)
      have hrest := fun q hq => h q (List.mem_cons_of_mem p hq)
      simp [extractTagEntry, hp, ih hrest]
  · intro tag v pre post h
    induction pre with
    | nil => simp [extractTagEntry, Value.beqRefl tag]
    | cons p rest ih =>
      have hp := h p (List.mem_cons_self p rest)
      have hrest := fun q hq => h q (List.mem_cons_of_mem p hq)
      simp [extractTagEntry, hp, ih hrest]

/-- Witness for C6: removing the tag entry from a concrete map whose first
entry is not the tag. -/
theorem c6_witness :
    extractTagEntry tagKeyV
        [(.TextString "bar", .Unsigned 42), (tagKeyV, .Unsigned 1)]
      = (.Unsigned 1, [(.TextString "bar", .Unsigned 42)]) := by
  have h := c6_internally_tagged.2.2.2.1 tagKeyV (.Unsigned 1)
    [(.TextString "bar", .Unsigned 42)] []
    (by
      intro p hp
      simp only [List.mem_singleton] at hp
      rw [hp]
      decide)
  simpa using h

/-- Helper for C10: in the generated cascade of direct-variant tests, the
first variant whose key matches wins. -/
theorem matchDirectVariants_first_match {α : Type}
    (pre : List (DirectVariant α)) (d : DirectVariant α)
    (post : List (DirectVariant α)) (k value : Value)
    (hpre : ∀ d' ∈ pre, Value.beq k d'.key = false)
    (hd : Value.beq k d.key = true) :
    matchDirectVariants (pre ++ d :: post) k value = some (d.dec value) := by
  induction pre with
  | nil => simp [matchDirectVariants, hd]
  | cons p rest ih =>
    have hp := hpre p (List.mem_cons_self p rest)
    have hrest := fun q hq => hpre q (List.mem_cons_of_mem p hq)
    simp [matchDirectVariants, hp, ih hrest]

/-- C10: in an externally tagged enum with embedded variants, a single-entry
map whose key matches a direct (non-embedded) variant is decoded by that
variant — the first matching direct variant in declaration order — and the
embedded decoders are never consulted, whatever they are; embedded decodes
only run as a fallback when no direct key matches.  Instantiated on the
test enums `EmbedParent` / `EmbedChild`, whose variant key `"C"` overlaps:
the parent's `C(u64)` wins over the child's `C(String)` (so
`{"C": "foo"}` fails with `UnexpectedType` instead of decoding to the
child variant, exactly as the repository's own test expects), while a
purely-child key such as `"E"` still reaches the embedded fallback. -/
theorem c10_parent_wins :
    (∀ (α : Type) (pre post : List (DirectVariant α)) (d : DirectVariant α)
      (embs : List (Value → Except DecodeError α)) (units : List (UnitVariant α))
      (inner : Value),
      (∀ d' ∈ pre, Value.beq d.key d'.key = false) →
      decodeExternallyTagged (pre ++ d :: post) embs units (.Map [(d.key, inner)])
        = d.dec inner)
    ∧ decodeEParentCore (.Map [(.TextString "C", .TextString "foo")])
        = .error .UnexpectedType
    ∧ decodeEChildCore (.Map [(.TextString "C", .TextString "foo")])
        = .ok (.C "foo")
    ∧ decodeEParentCore (.Map [(.TextString "C", .Unsigned 42)]) = .ok (.C 42)
    ∧ decodeEParentCore (.Map [(.TextString "E", .Unsigned 42)]) = .ok (.B (.E 42)) := by
  refine ⟨?_, by decide, by decide, by decide, by decide⟩
  intro α pre post d embs units inner hpre
  have h := matchDirectVariants_first_match pre d post d.key inner hpre (Value.beqRefl d.key)
  simp [decodeExternallyTagged, h]

/-- Witness for C10 at a concrete input: the parent variant `C` is chosen for
the key `"C"` even though an embedded decoder exists. -/
theorem c10_witness :
    decodeExternallyTagged
        [⟨.TextString "A", fun v =>
            match stringDecode.tryFromCborValueDefault v with
            | .error e => .error e
            | .ok s => .ok (.A s)⟩,
         ⟨.TextString "C", fun v =>
            match u64Decode.tryFromCborValueDefault v with
            | .error e => .error e
            | .ok n => .ok (.C n)⟩]
        [fun v =>
          match echildDecode.tryFromCborValueDefault v with
          | .error e => .error e
          | .ok c => .ok (.B c)]
        []
        (.Map [(.TextString "C", .Unsigned 7)]) = .ok (EParent.C 7) := by
  have h := c10_parent_wins.1 EParent
    [⟨.TextString "A", fun v =>
        match stringDecode.tryFromCborValueDefault v with
        | .error e => .error e
        | .ok s => .ok (.A s)⟩]
    []
    ⟨.TextString "C", fun v =>
        match u64Decode.tryFromCborValueDefault v with
        | .error e => .error e
        | .ok n => .ok (.C n)⟩
    [fun v =>
      match echildDecode.tryFromCborValueDefault v with
      | .error e => .error e
      | .ok c => .ok (.B c)]
    []
    (.Unsigned 7)
    (by
      intro d' hd'
      simp only [List.mem_singleton] at hd'
      rw [hd']
      decide)
  simpa using h

/-- C4 counterexample: a map whose entries are OUT of canonical order
(`"bytes"` sorts after `"foo"`, yet appears first) reaches the derived
struct decoder through `from_value` and is decoded successfully — the
decoder re-sorts it instead of failing. -/
theorem c4_counterexample_out_of_order_accepted :
    fromValueB (.Map [(.TextString "bytes", .ByteString [1]),
                      (.TextString "foo", .Unsigned 42)])
      = .ok ⟨42, [1]⟩ := by decide

/-- C4 amended: the generated struct decoder calls `map.sort()` before the
strict merge, so out-of-order maps are silently re-sorted and accepted
(the reordered `B` map decodes to the same value as the canonical one);
duplicated keys, however, are still detected by the merge and fail with
`UnknownField` when `allow_unknown` is not set — whether the duplicate is
of the first field (shown for arbitrary values) or of the last field. -/
theorem c4_resort_and_duplicates_amended :
    fromValueB (.Map [(.TextString "bytes", .ByteString [1]),
                      (.TextString "foo", .Unsigned 42)])
      = fromValueB (.Map [(.TextString "foo", .Unsigned 42),
                          (.TextString "bytes", .ByteString [1])])
    ∧ (∀ v1 v2 : Nat,
        decodeB (.Map [(.TextString "foo", .Unsigned v1),
                       (.TextString "foo", .Unsigned v2)])
          = .error .UnknownField)
    ∧ decodeB (.Map [(.TextString "foo", .Unsigned 1),
                     (.TextString "bytes", .ByteString []),
                     (.TextString "bytes", .ByteString [2])])
        = .error .UnknownField := by
  refine ⟨by decide, ?_, by decide⟩
  intro v1 v2
  have hkey : Value.compare (.TextString "foo") (.TextString "foo") = .eq := by decide
  have hlt : Value.compare (.TextString "foo") (.TextString "bytes") = .lt := by decide
  by_cases hc : pairLE (Value.TextString "foo", Value.Unsigned v1)
      (Value.TextString "foo", Value.Unsigned v2) = true
  · have hsort : mapSort [(Value.TextString "foo", Value.Unsigned v1),
        (Value.TextString "foo", Value.Unsigned v2)]
        = [(Value.TextString "foo", Value.Unsigned v1),
           (Value.TextString "foo", Value.Unsigned v2)] := by
      simp [mapSort, stableSort, insertStable, hc]
    simp [decodeB, hsort, destructureCborMapPeekValueStrict, hkey, hlt,
      DecodeImpl.tryFromCborValueDefault, u64Decode]
  · have hc' : pairLE (Value.TextString "foo", Value.Unsigned v1)
        (Value.TextString "foo", Value.Unsigned v2) = false := by
      simpa using hc
    have hsort : mapSort [(Value.TextString "foo", Value.Unsigned v1),
        (Value.TextString "foo", Value.Unsigned v2)]
        = [(Value.TextString "foo", Value.Unsigned v2),
           (Value.TextString "foo", Value.Unsigned v1)] := by
      simp [mapSort, stableSort, insertStable, hc']
    simp [decodeB, hsort, destructureCborMapPeekValueStrict, hkey, hlt,
      DecodeImpl.tryFromCborValueDefault, u64Decode]

/-- C1 counterexample: with the default configuration and no attributes at
all, the value `Some(None) : Option<Option<bool>>` encodes to `Null`, and
`from_value(to_value(Some(None)))` decodes to `None`, not `Some(None)` —
the round trip fails on a type whose encoding collapses to `Null`. -/
theorem c1_counterexample_nested_option :
    (optionDecode (optionDecode boolDecode)).tryFromCborValueDefault
        ((optionEncode (optionEncode boolEncode)).intoCborValue (some none))
      = .ok none
    ∧ (Except.ok none : Except DecodeError (Option (Option Bool))) ≠ .ok (some none) := by
  exact ⟨rfl, by decide⟩

/-- Helper for C1: elementwise decoding inverts elementwise `u64` encoding. -/
theorem decodeElems_u64_map (l : List Nat) :
    decodeElems u64Decode (l.map u64Encode.intoCborValue) = .ok l := by
  induction l with
  | nil => rfl
  | cons a rest ih =>
    have ha : u64Decode.tryFromCborValue (u64Encode.intoCborValue a) = .ok a := rfl
    simp [decodeElems, List.map_cons, ha, ih]

/-- C1 amended: `from_value(to_value(v)) = v` holds for the primitive types
and for derived map-carrier structs, as long as no value's encoding
collapses to `Null`/`Undefined`: it holds for unsigned integers, booleans,
strings, byte vectors, vectors, one-level options and for the derived
struct `B`; nested options (see the counterexample) and the `Undefined`
passthrough are the exceptions. -/
theorem c1_round_trip_amended :
    (∀ n : Nat, u64Decode.tryFromCborValueDefault (u64Encode.intoCborValue n) = .ok n)
    ∧ (∀ b : Bool, boolDecode.tryFromCborValueDefault (boolEncode.intoCborValue b) = .ok b)
    ∧ (∀ s : String,
        stringDecode.tryFromCborValueDefault (stringEncode.intoCborValue s) = .ok s)
    ∧ (∀ l : List Nat,
        vecU8Decode.tryFromCborValueDefault (vecU8Encode.intoCborValue l) = .ok l)
    ∧ (∀ l : List Nat,
        (vecDecode u64Decode).tryFromCborValueDefault
          ((vecEncode u64Encode).intoCborValue l) = .ok l)
    ∧ (∀ o : Option Bool,
        (optionDecode boolDecode).tryFromCborValueDefault
          ((optionEncode boolEncode).intoCborValue o) = .ok o)
    ∧ (∀ b : BStruct, fromValueB (encodeB b) = .ok b) := by
  refine ⟨fun n => rfl, ?_, fun s => rfl, fun l => rfl, ?_, ?_, ?_⟩
  · intro b
    cases b <;> rfl
  · intro l
    simp [vecEncode, vecDecode, DecodeImpl.tryFromCborValueDefault, decodeElems_u64_map l]
  · intro o
    rcases o with _ | x
    · rfl
    · cases x <;> rfl
  · intro b
    have hfb : pairLE (Value.TextString "foo", Value.Unsigned b.foo)
        (Value.TextString "bytes", Value.ByteString b.bytes) = true := by
      simp [pairLE, Value.comparePair,
        (show Value.compare (.TextString "foo") (.TextString "bytes") = .lt by decide),
        Ordering.then]
    have hsort : mapSort [(Value.TextString "foo", Value.Unsigned b.foo),
        (Value.TextString "bytes", Value.ByteString b.bytes)]
        = [(Value.TextString "foo", Value.Unsigned b.foo),
           (Value.TextString "bytes", Value.ByteString b.bytes)] := by
      simp [mapSort, stableSort, insertStable, hfb]
    simp [fromValueB, bDecode, DecodeImpl.tryFromCborValueDefault, encodeB, decodeB, hsort,
      destructureCborMapPeekValueStrict,
      (show Value.compare (.TextString "foo") (.TextString "foo") = .eq by decide),
      (show Value.compare (.TextString "bytes") (.TextString "bytes") = .eq by decide),
      u64Decode, vecU8Decode, u64Encode, vecU8Encode]

/-- Helper: the recurrence of the bit length. -/
theorem sizeRec (m : Nat) (h : 0 < m) : Nat.size m = Nat.size (m / 2) + 1 := by
  conv_lhs => rw [← Nat.bit_decomp m]
  rw [Nat.size_bit, Nat.div2_val]
  rw [Nat.bit_decomp]
  omega

/-- Helper: with enough fuel, `sizeFuel` computes the bit length. -/
theorem sizeFuel_eq (f x : Nat) (h : x < 2 ^ f) : sizeFuel f x = Nat.size x := by
  induction f generalizing x with
  | zero => interval_cases x; simp [sizeFuel]
  | succ f ih =>
    match x with
    | 0 => simp [sizeFuel]
    | x + 1 =>
      rw [sizeFuel, ih ((x + 1) / 2) (by omega), ← sizeRec (x + 1) (by omega)]

/-- Helper: `toBeBytes n x` has exactly `n` bytes. -/
theorem toBeBytes_length (n : Nat) : ∀ x, (toBeBytes n x).length = n := by
  induction n with
  | zero => intro x; rfl
  | succ n ih => intro x; simp [toBeBytes, ih]

/-- Helper: appending a low byte. -/
theorem fromBeBytes_append (l : List Nat) (b : Nat) :
    fromBeBytes (l ++ [b]) = fromBeBytes l * 256 + b := by
  simp [fromBeBytes, List.foldl_append]

/-- Helper: `fromBeBytes` inverts `toBeBytes` below `256^n`. -/
theorem fromBeBytes_toBeBytes (n : Nat) :
    ∀ x, x < 256 ^ n → fromBeBytes (toBeBytes n x) = x := by
  induction n with
  | zero =>
    intro x hx
    interval_cases x
    rfl
  | succ n ih =>
    intro x hx
    have hdiv : x / 256 < 256 ^ n := by
      rw [Nat.div_lt_iff_lt_mul (by norm_num)]
      calc x < 256 ^ (n + 1) := hx
        _ = 256 ^ n * 256 := by ring
    rw [toBeBytes, fromBeBytes_append, ih (x / 256) hdiv]
    omega

/-- Helper: zero turns into zero bytes. -/
theorem toBeBytes_zero (n : Nat) : toBeBytes n 0 = List.replicate n 0 := by
  induction n with
  | zero => rfl
  | succ n ih => rw [toBeBytes, Nat.zero_div, ih, List.replicate_succ']

/-- Helper: below `256^n`, the high bytes of a wider representation are
zero. -/
theorem toBeBytes_pad (n : Nat) :
    ∀ (j x : Nat), x < 256 ^ n →
      toBeBytes (n + j) x = List.replicate j 0 ++ toBeBytes n x := by
  induction n with
  | zero =>
    intro j x hx
    interval_cases x
    simp [toBeBytes, toBeBytes_zero]
  | succ n ih =>
    intro j x hx
    have hdiv : x / 256 < 256 ^ n := by
      rw [Nat.div_lt_iff_lt_mul (by norm_num)]
      calc x < 256 ^ (n + 1) := hx
        _ = 256 ^ n * 256 := by ring
    have harith : n + 1 + j = (n + j) + 1 := by omega
    rw [harith, toBeBytes, ih j (x / 256) hdiv, toBeBytes]
    simp

/-- Helper: leading zero bytes do not change the denoted integer. -/
theorem fromBeBytes_replicate (j : Nat) (l : List Nat) :
    fromBeBytes (List.replicate j 0 ++ l) = fromBeBytes l := by
  induction j with
  | zero => rfl
  | succ j ih =>
    rw [List.replicate_succ, List.cons_append]
    show fromBeBytes (List.replicate j 0 ++ l) = fromBeBytes l
    exact ih

/-- Helper: the head of a big-endian representation is the high byte. -/
theorem toBeBytes_head (m : Nat) :
    ∀ x, x < 256 ^ (m + 1) →
      (toBeBytes (m + 1) x).head? = some (x / 256 ^ m) := by
  induction m with
  | zero =>
    intro x hx
    show (toBeBytes 0 (x / 256) ++ [x % 256]).head? = some (x / 256 ^ 0)
    have : x % 256 = x := Nat.mod_eq_of_lt (by simpa using hx)
    simp [toBeBytes, this]
  | succ m ih =>
    intro x hx
    have hdiv : x / 256 < 256 ^ (m + 1) := by
      rw [Nat.div_lt_iff_lt_mul (by norm_num)]
      calc x < 256 ^ (m + 2) := hx
        _ = 256 ^ (m + 1) * 256 := by ring
    have hne : toBeBytes (m + 1) (x / 256) ≠ [] := by
      intro hnil
      have := toBeBytes_length (m + 1) (x / 256)
      rw [hnil] at this
      simp at this
    show (toBeBytes (m + 1) (x / 256) ++ [x % 256]).head? = some (x / 256 ^ (m + 1))
    rw [List.head?_append_of_ne_nil _ hne, ih (x / 256) hdiv,
      Nat.div_div_eq_div_mul]
    congr 1
    ring_nf

/-- Helper: structure of the `u128` encoding: the emitted bytes are the
minimal big-endian representation `toBeBytes m x` for some width `m ≤ 16`,
and for nonzero `x` the width is positive with `x` filling its top byte. -/
theorem u128Bytes_repr (x : Nat) (hx : x < 2 ^ 128) :
    ∃ m : Nat, m ≤ 16 ∧ x < 256 ^ m ∧ u128Bytes x = toBeBytes m x
      ∧ (x ≠ 0 → 0 < m ∧ 256 ^ (m - 1) ≤ x) := by
  have hs129 : x < 2 ^ 129 := lt_trans hx (by norm_num)
  have hsval : sizeFuel 129 x = Nat.size x := sizeFuel_eq 129 x hs129
  have hsle : Nat.size x ≤ 128 := Nat.size_le.mpr hx
  have hdm := Nat.div_add_mod (128 - Nat.size x) 8
  have hmod := Nat.mod_lt (128 - Nat.size x) (show 0 < 8 by norm_num)
  refine ⟨16 - (128 - Nat.size x) / 8, by omega, ?_, ?_, ?_⟩
  · have h8 : Nat.size x ≤ 8 * (16 - (128 - Nat.size x) / 8) := by omega
    calc x < 2 ^ Nat.size x := Nat.lt_size_self x
      _ ≤ 2 ^ (8 * (16 - (128 - Nat.size x) / 8)) := Nat.pow_le_pow_right (by norm_num) h8
      _ = 256 ^ (16 - (128 - Nat.size x) / 8) := by
          rw [show (256 : Nat) = 2 ^ 8 by norm_num, ← pow_mul]
  · have h8 : Nat.size x ≤ 8 * (16 - (128 - Nat.size x) / 8) := by omega
    have hx256 : x < 256 ^ (16 - (128 - Nat.size x) / 8) := by
      calc x < 2 ^ Nat.size x := Nat.lt_size_self x
        _ ≤ 2 ^ (8 * (16 - (128 - Nat.size x) / 8)) := Nat.pow_le_pow_right (by norm_num) h8
        _ = 256 ^ (16 - (128 - Nat.size x) / 8) := by
            rw [show (256 : Nat) = 2 ^ 8 by norm_num, ← pow_mul]
    have h16 : (16 : Nat) = (16 - (128 - Nat.size x) / 8) + (128 - Nat.size x) / 8 := by omega
    rw [u128Bytes, u128LeadingZeros, hsval, h16,
      toBeBytes_pad (16 - (128 - Nat.size x) / 8) ((128 - Nat.size x) / 8) x hx256]
    have hdrop := List.drop_left (List.replicate ((128 - Nat.size x) / 8) (0 : Nat))
      (toBeBytes (16 - (128 - Nat.size x) / 8) x)
    rw [List.length_replicate] at hdrop
    rw [hdrop]
    congr 1
    omega
  · intro hne
    have hspos : 0 < Nat.size x := Nat.size_pos.mpr (Nat.pos_of_ne_zero hne)
    have hm8 : 8 * (16 - (128 - Nat.size x) / 8 - 1) ≤ Nat.size x - 1 := by omega
    refine ⟨by omega, ?_⟩
    calc (256 : Nat) ^ (16 - (128 - Nat.size x) / 8 - 1)
        = 2 ^ (8 * (16 - (128 - Nat.size x) / 8 - 1)) := by
          rw [show (256 : Nat) = 2 ^ 8 by norm_num, ← pow_mul]
      _ ≤ 2 ^ (Nat.size x - 1) := Nat.pow_le_pow_right (by norm_num) hm8
      _ ≤ x := Nat.lt_size.mp (by omega)

/-- C9: a 128-bit unsigned integer encodes as the `ByteString` of its
big-endian bytes with all leading zero bytes stripped (empty for `0`, and
the top byte of a nonzero value is never `0`); decoding succeeds exactly
on byte strings of length at most 16, zero-extending shorter inputs on the
left, and fails with `UnexpectedIntegerSize` beyond 16 bytes; decoding
inverts encoding. -/
theorem c9_u128_encoding :
    (∀ x : Nat, x < 2 ^ 128 →
        u128Decode.tryFromCborValue (u128Encode.intoCborValue x) = .ok x)
    ∧ u128Encode.intoCborValue 0 = .ByteString []
    ∧ (∀ (x b : Nat) (l : List Nat), x < 2 ^ 128 → u128Bytes x = b :: l → b ≠ 0)
    ∧ (∀ bs : List Nat, bs.length ≤ 16 →
        u128Decode.tryFromCborValue (.ByteString bs) = .ok (fromBeBytes bs))
    ∧ (∀ bs : List Nat, 16 < bs.length →
        u128Decode.tryFromCborValue (.ByteString bs) = .error .UnexpectedIntegerSize) := by
  refine ⟨?_, rfl, ?_, ?_, ?_⟩
  · intro x hx
    obtain ⟨m, hm16, hx256, hbytes, _⟩ := u128Bytes_repr x hx
    have hlen : (toBeBytes m x).length = m := toBeBytes_length m x
    rcases Nat.lt_or_ge m 16 with hlt | hge
    · have hcmp : cmpNat m 16 = .lt := by simp [cmpNat, hlt]
      simp [u128Encode, u128Decode, hbytes, hlen, hcmp, fromBeBytes_replicate,
        fromBeBytes_toBeBytes m x hx256]
    · have hm : m = 16 := by omega
      subst hm
      have hcmp : cmpNat (16 : Nat) 16 = .eq := by simp [cmpNat]
      simp [u128Encode, u128Decode, hbytes, hlen, hcmp,
        fromBeBytes_toBeBytes 16 x hx256]
  · intro x b l hx hbl
    by_cases hx0 : x = 0
    · subst hx0
      have : u128Bytes 0 = [] := by decide
      rw [this] at hbl
      cases hbl
    · obtain ⟨m, _, hx256, hbytes, hpos⟩ := u128Bytes_repr x hx
      obtain ⟨hm0, hle⟩ := hpos hx0
      have hm' : m - 1 + 1 = m := by omega
      have hhead : (toBeBytes m x).head? = some (x / 256 ^ (m - 1)) := by
        rw [← hm']
        exact toBeBytes_head (m - 1) x (by rw [hm']; exact hx256)
      rw [← hbytes, hbl] at hhead
      simp only [List.head?_cons, Option.some.injEq] at hhead
      have hbpos : 0 < x / 256 ^ (m - 1) :=
        Nat.div_pos hle (Nat.pos_pow_of_pos (m - 1) (by norm_num))
      omega
  · intro bs hle
    rcases Nat.lt_or_ge bs.length 16 with hlt | hge
    · have hcmp : cmpNat bs.length 16 = .lt := by simp [cmpNat, hlt]
      simp [u128Decode, hcmp, fromBeBytes_replicate]
    · have hlen : bs.length = 16 := by omega
      have hcmp : cmpNat bs.length 16 = .eq := by simp [cmpNat, hlen]
      simp [u128Decode, hcmp]
  · intro bs hgt
    have hcmp : cmpNat bs.length 16 = .gt := by
      simp only [cmpNat]
      rw [if_neg (by omega), if_neg (by omega)]
    simp [u128Decode, hcmp]

/-- Witness for C9 at the test vector `1000000` from the repository's own
tests (`43 0F 42 40`). -/
theorem c9_witness :
    (1000000 : Nat) < 2 ^ 128
    ∧ u128Decode.tryFromCborValue (u128Encode.intoCborValue 1000000) = .ok 1000000 :=
  ⟨by decide, c9_u128_encoding.1 1000000 (by decide)⟩
